import Mathlib

/-!
Verification of the RaceBox telemetry core: the packet framing/reassembly
engine (`PacketParser.add_data`), the fixed-layout binary decoder
(`parse_motion_data`, `parse_location_data`, `parse_packet`), the
application data handler (`RaceboxApp.handle_bluetooth_data`) and the
retry loop of the connection lifecycle (`BLTHandler.connect_and_run`).

Bytes are modelled as natural numbers, byte strings as `List Nat`,
Python `int.from_bytes(..., byteorder='little', signed=...)` as
`leUnsigned` / `leSigned`, and the scaled decoded values as exact
rationals.  The `while` loop of `add_data` is embedded as the
structurally recursive `drainFuel` with the buffer length as fuel
(every non-breaking iteration strictly shortens the buffer, so a fuel
equal to the initial length is never exhausted; `drainFuel_congr`
makes the fuel irrelevant).
-/

namespace Racebox

/-- UBX start sequence `PACKET_START = bytes([0xB5, 0x62])` from
`PacketParser.__init__`. -/
def PACKET_START : List Nat := [0xB5, 0x62]

/-- Standard RaceBox packet size `PACKET_SIZE = 80` from
`PacketParser.__init__`. -/
def PACKET_SIZE : Nat := 80

/-- The `while` loop of `PacketParser.add_data`: while the buffer holds at
least two bytes, drop one leading byte if the first two are not the start
sequence, emit the first `PACKET_SIZE` bytes as a packet if the buffer is
long enough, and otherwise stop.  `fuel` bounds the number of iterations;
`fuel = buf.length` always suffices. -/
def drainFuel : Nat → List Nat → List (List Nat) × List Nat
  | 0, buf => ([], buf)
  | fuel + 1, buf =>
    if 2 ≤ buf.length then
      if buf.take 2 ≠ PACKET_START then
        drainFuel fuel (buf.drop 1)
      else if PACKET_SIZE ≤ buf.length then
        let rest := drainFuel fuel (buf.drop PACKET_SIZE)
        (buf.take PACKET_SIZE :: rest.1, rest.2)
      else ([], buf)
    else ([], buf)

/-- Run the `add_data` loop on a buffer until it stops. -/
def drain (buf : List Nat) : List (List Nat) × List Nat :=
  drainFuel buf.length buf

/-- Parser state: the `self.buffer` bytearray of `PacketParser`. -/
structure PacketParser where
  buffer : List Nat
deriving DecidableEq

/-- The method `PacketParser.add_data`: extend the buffer with the new
data, extract all complete packets, and return them together with the
updated parser state. -/
def add_data (p : PacketParser) (data : List Nat) : List (List Nat) × PacketParser :=
  let r := drain (p.buffer ++ data)
  (r.1, ⟨r.2⟩)

theorem drainFuel_short (fuel : Nat) (buf : List Nat) (h : buf.length < 2) :
    drainFuel fuel buf = ([], buf) := by
  cases fuel with
  | zero => rfl
  | succ n =>
    simp only [drainFuel]
    rw [if_neg (by omega)]

theorem drainFuel_congr : ∀ (f₁ f₂ : Nat) (buf : List Nat),
    buf.length ≤ f₁ → buf.length ≤ f₂ → drainFuel f₁ buf = drainFuel f₂ buf := by
  intro f₁
  induction f₁ with
  | zero =>
    intro f₂ buf h₁ h₂
    rw [drainFuel_short 0 buf (by omega), drainFuel_short f₂ buf (by omega)]
  | succ n ih =>
    intro f₂ buf h₁ h₂
    by_cases hlen : 2 ≤ buf.length
    · cases f₂ with
      | zero => omega
      | succ m =>
        simp only [drainFuel]
        rw [if_pos hlen, if_pos hlen]
        by_cases hm : buf.take 2 ≠ PACKET_START
        · rw [if_pos hm, if_pos hm]
          exact ih m (buf.drop 1) (by simp; omega) (by simp; omega)
        · rw [if_neg hm, if_neg hm]
          by_cases h80 : PACKET_SIZE ≤ buf.length
          · rw [if_pos h80, if_pos h80]
            have hrec := ih m (buf.drop PACKET_SIZE)
              (by simp [PACKET_SIZE] at h80 ⊢; omega)
              (by simp [PACKET_SIZE] at h80 ⊢; omega)
            rw [hrec]
          · rw [if_neg h80, if_neg h80]
    · rw [drainFuel_short _ buf (by omega), drainFuel_short _ buf (by omega)]

theorem drain_eq_short (buf : List Nat) (h : buf.length < 2) :
    drain buf = ([], buf) :=
  drainFuel_short buf.length buf h

theorem drain_eq_drop (buf : List Nat) (h2 : 2 ≤ buf.length)
    (hm : buf.take 2 ≠ PACKET_START) : drain buf = drain (buf.drop 1) := by
  unfold drain
  obtain ⟨n, hn⟩ : ∃ n, buf.length = n + 1 := ⟨buf.length - 1, by omega⟩
  rw [hn]
  simp only [drainFuel]
  rw [if_pos (by omega), if_pos hm]
  exact drainFuel_congr n (buf.drop 1).length (buf.drop 1) (by simp; omega) le_rfl

theorem drain_eq_emit (buf : List Nat) (h80 : PACKET_SIZE ≤ buf.length)
    (hm : buf.take 2 = PACKET_START) :
    drain buf = (buf.take PACKET_SIZE :: (drain (buf.drop PACKET_SIZE)).1,
      (drain (buf.drop PACKET_SIZE)).2) := by
  unfold drain
  obtain ⟨n, hn⟩ : ∃ n, buf.length = n + 1 :=
    ⟨buf.length - 1, by simp [PACKET_SIZE] at h80; omega⟩
  rw [hn]
  simp only [drainFuel]
  rw [if_pos (by simp [PACKET_SIZE] at h80; omega), if_neg (by simp [hm]), if_pos h80]
  have hrec := drainFuel_congr n (buf.drop PACKET_SIZE).length (buf.drop PACKET_SIZE)
    (by simp [PACKET_SIZE] at h80 ⊢; omega) le_rfl
  rw [hrec]

theorem drain_eq_wait (buf : List Nat) (h2 : 2 ≤ buf.length)
    (h80 : buf.length < PACKET_SIZE) (hm : buf.take 2 = PACKET_START) :
    drain buf = ([], buf) := by
  unfold drain
  obtain ⟨n, hn⟩ : ∃ n, buf.length = n + 1 := ⟨buf.length - 1, by omega⟩
  rw [hn]
  simp only [drainFuel]
  rw [if_pos (by omega), if_neg (by simp [hm]), if_neg (by omega)]

theorem drain_append_aux : ∀ (n : Nat) (b : List Nat), b.length ≤ n → ∀ d : List Nat,
    drain (b ++ d) = ((drain b).1 ++ (drain ((drain b).2 ++ d)).1,
      (drain ((drain b).2 ++ d)).2) := by
  intro n
  induction n with
  | zero =>
    intro b hb d
    have hnil : b = [] := List.length_eq_zero.mp (by omega)
    subst hnil
    rw [drain_eq_short [] (by simp)]
    simp
  | succ n ih =>
    intro b hb d
    by_cases h2 : 2 ≤ b.length
    · by_cases hm : b.take 2 = PACKET_START
      · by_cases h80 : PACKET_SIZE ≤ b.length
        · have hmd : (b ++ d).take 2 = PACKET_START := by
            rw [List.take_append_of_le_length (by omega)]; exact hm
          have h80d : PACKET_SIZE ≤ (b ++ d).length := by simp; omega
          rw [drain_eq_emit (b ++ d) h80d hmd, drain_eq_emit b h80 hm]
          have htk : (b ++ d).take PACKET_SIZE = b.take PACKET_SIZE :=
            List.take_append_of_le_length h80
          have hdr : (b ++ d).drop PACKET_SIZE = b.drop PACKET_SIZE ++ d :=
            List.drop_append_of_le_length h80
          have hlen : (b.drop PACKET_SIZE).length ≤ n := by
            simp [PACKET_SIZE] at h80 ⊢; omega
          rw [htk, hdr, ih (b.drop PACKET_SIZE) hlen d]
          simp
        · have hq : drain b = ([], b) := drain_eq_wait b h2 (by omega) hm
          rw [hq]
          simp
      · have hmd : (b ++ d).take 2 ≠ PACKET_START := by
          rw [List.take_append_of_le_length (by omega)]; exact hm
        have h2d : 2 ≤ (b ++ d).length := by simp; omega
        rw [drain_eq_drop (b ++ d) h2d hmd, drain_eq_drop b h2 hm]
        have hdr : (b ++ d).drop 1 = b.drop 1 ++ d :=
          List.drop_append_of_le_length (by omega)
        have hlen : (b.drop 1).length ≤ n := by simp; omega
        rw [hdr, ih (b.drop 1) hlen d]
    · have hq : drain b = ([], b) := drain_eq_short b (by omega)
      rw [hq]
      simp

/-- Feeding `b ++ d` through the drain loop first drains `b`, then drains
the residue of `b` followed by `d`; the packet lists concatenate. -/
theorem drain_append (b d : List Nat) :
    drain (b ++ d) = ((drain b).1 ++ (drain ((drain b).2 ++ d)).1,
      (drain ((drain b).2 ++ d)).2) :=
  drain_append_aux b.length b le_rfl d

/-- The residual buffer left by the drain loop is quiescent: shorter than
two bytes, or marker-prefixed and shorter than a full packet. -/
theorem drain_quiescent : ∀ (n : Nat) (b : List Nat), b.length ≤ n →
    (drain b).2.length < 2 ∨
      ((drain b).2.take 2 = PACKET_START ∧ (drain b).2.length < PACKET_SIZE) := by
  intro n
  induction n with
  | zero =>
    intro b hb
    have hnil : b = [] := List.length_eq_zero.mp (by omega)
    subst hnil
    rw [drain_eq_short [] (by simp)]
    simp [PACKET_SIZE]
  | succ n ih =>
    intro b hb
    by_cases h2 : 2 ≤ b.length
    · by_cases hm : b.take 2 = PACKET_START
      · by_cases h80 : PACKET_SIZE ≤ b.length
        · rw [drain_eq_emit b h80 hm]
          exact ih (b.drop PACKET_SIZE) (by simp [PACKET_SIZE] at h80 ⊢; omega)
        · rw [drain_eq_wait b h2 (by omega) hm]
          exact Or.inr ⟨hm, show b.length < PACKET_SIZE by omega⟩
      · rw [drain_eq_drop b h2 hm]
        exact ih (b.drop 1) (by simp; omega)
    · rw [drain_eq_short b (by omega)]
      exact Or.inl (show b.length < 2 by omega)

/-- Every packet emitted by the drain loop is a full `PACKET_SIZE`-byte,
marker-prefixed frame. -/
theorem drain_frames : ∀ (n : Nat) (b : List Nat), b.length ≤ n →
    ∀ p ∈ (drain b).1, p.length = PACKET_SIZE ∧ p.take 2 = PACKET_START := by
  intro n
  induction n with
  | zero =>
    intro b hb p hp
    have hnil : b = [] := List.length_eq_zero.mp (by omega)
    subst hnil
    rw [drain_eq_short [] (by simp)] at hp
    simp at hp
  | succ n ih =>
    intro b hb p hp
    by_cases h2 : 2 ≤ b.length
    · by_cases hm : b.take 2 = PACKET_START
      · by_cases h80 : PACKET_SIZE ≤ b.length
        · rw [drain_eq_emit b h80 hm] at hp
          rcases List.mem_cons.mp hp with hhd | htl
          · subst hhd
            constructor
            · simp; omega
            · rw [List.take_take]
              simpa using hm
          · exact ih (b.drop PACKET_SIZE) (by simp [PACKET_SIZE] at h80 ⊢; omega) p htl
        · rw [drain_eq_wait b h2 (by omega) hm] at hp
          simp at hp
      · rw [drain_eq_drop b h2 hm] at hp
        exact ih (b.drop 1) (by simp; omega) p hp
    · rw [drain_eq_short b (by omega)] at hp
      simp at hp

/-- Noise bytes in which no adjacent pair forms the start marker. -/
def noiseOk (noise : List Nat) : Prop :=
  List.Chain' (fun a b => ¬(a = 0xB5 ∧ b = 0x62)) noise

instance (noise : List Nat) : Decidable (noiseOk noise) :=
  inferInstanceAs (Decidable (List.Chain' (fun a b => ¬(a = 0xB5 ∧ b = 0x62)) noise))

/-- Draining arbitrary non-marker noise followed by one complete valid
frame yields exactly that frame and an empty residual buffer. -/
theorem drain_noise : ∀ (noise frame : List Nat), noiseOk noise →
    frame.length = PACKET_SIZE → frame.take 2 = PACKET_START →
    drain (noise ++ frame) = ([frame], []) := by
  intro noise
  induction noise with
  | nil =>
    intro frame hok hlen hmk
    rw [List.nil_append]
    rw [drain_eq_emit frame (by omega) hmk]
    rw [List.take_of_length_le (by omega), List.drop_of_length_le (by omega)]
    rw [drain_eq_short [] (by simp)]
  | cons a rest ih =>
    intro frame hok hlen hmk
    obtain ⟨f₀, f₁, ftl, hf⟩ : ∃ f₀ f₁ ftl, frame = f₀ :: f₁ :: ftl := by
      match frame, hmk with
      | f₀ :: f₁ :: ftl, _ => exact ⟨f₀, f₁, ftl, rfl⟩
    have hf₀ : f₀ = 0xB5 ∧ f₁ = 0x62 := by
      rw [hf] at hmk
      simp [PACKET_START] at hmk
      exact hmk
    have hne : ((a :: rest) ++ frame).take 2 ≠ PACKET_START := by
      cases rest with
      | nil =>
        rw [hf]
        simp [PACKET_START, hf₀.1]
      | cons r rtl =>
        have hch := List.chain'_cons.mp hok
        simp only [List.cons_append, List.take_succ_cons]
        simp [PACKET_START]
        intro ha hr
        exact hch.1 ⟨ha, hr⟩
    have h2 : 2 ≤ ((a :: rest) ++ frame).length := by
      have h80 : frame.length = 80 := by simpa [PACKET_SIZE] using hlen
      simp
      omega
    rw [drain_eq_drop ((a :: rest) ++ frame) h2 hne]
    have hdr : ((a :: rest) ++ frame).drop 1 = rest ++ frame := by simp
    rw [hdr]
    exact ih frame (List.Chain'.tail hok) hlen hmk

/-- Interleave junk stretches with packets: the first junk list precedes
the first packet, and the final junk list (always present) follows the
last packet. -/
def interleave : List (List Nat) → List (List Nat) → List Nat
  | [], _ => []
  | j :: _, [] => j
  | j :: js, p :: ps => j ++ p ++ interleave js ps

theorem interleave_cons_head (a : Nat) (j : List Nat) (js ps : List (List Nat)) :
    interleave ((a :: j) :: js) ps = a :: interleave (j :: js) ps := by
  cases ps with
  | nil => rfl
  | cons p ptl => simp [interleave]

/-- Byte conservation of the drain loop: the input buffer decomposes into
dropped-junk stretches interleaved with the emitted packets, followed by
the residual buffer.  No byte is lost except dropped junk, and every
emitted packet occupies its own consecutive slice of the input. -/
theorem drain_conservation : ∀ (n : Nat) (b : List Nat), b.length ≤ n →
    ∃ js : List (List Nat), js.length = (drain b).1.length + 1 ∧
      b = interleave js (drain b).1 ++ (drain b).2 := by
  intro n
  induction n with
  | zero =>
    intro b hb
    have hnil : b = [] := List.length_eq_zero.mp (by omega)
    subst hnil
    rw [drain_eq_short [] (by simp)]
    exact ⟨[[]], by simp, by simp [interleave]⟩
  | succ n ih =>
    intro b hb
    by_cases h2 : 2 ≤ b.length
    · by_cases hm : b.take 2 = PACKET_START
      · by_cases h80 : PACKET_SIZE ≤ b.length
        · rw [drain_eq_emit b h80 hm]
          obtain ⟨js, hjl, hje⟩ := ih (b.drop PACKET_SIZE)
            (by simp [PACKET_SIZE] at h80 ⊢; omega)
          refine ⟨[] :: js, by simpa using hjl, ?_⟩
          simp only [interleave, List.nil_append, List.append_assoc]
          rw [← hje]
          exact (List.take_append_drop PACKET_SIZE b).symm
        · rw [drain_eq_wait b h2 (by omega) hm]
          exact ⟨[[]], by simp, by simp [interleave]⟩
      · rw [drain_eq_drop b h2 hm]
        obtain ⟨js, hjl, hje⟩ := ih (b.drop 1) (by simp; omega)
        obtain ⟨j₀, jtl, hj⟩ : ∃ j₀ jtl, js = j₀ :: jtl := by
          cases js with
          | nil => simp at hjl
          | cons j₀ jtl => exact ⟨j₀, jtl, rfl⟩
        obtain ⟨a, btl, hb'⟩ : ∃ a btl, b = a :: btl := by
          cases b with
          | nil => simp at h2
          | cons a btl => exact ⟨a, btl, rfl⟩
        refine ⟨(a :: j₀) :: jtl, by simpa [hj] using hjl, ?_⟩
        rw [interleave_cons_head, ← hj, List.cons_append, ← hje, hb']
        simp
    · rw [drain_eq_short b (by omega)]
      exact ⟨[[]], by simp, by simp [interleave]⟩

/-- The residual buffer of a drain is itself fully drained: draining it
again emits nothing and leaves it unchanged. -/
theorem drain_idem (b : List Nat) : drain ((drain b).2) = ([], (drain b).2) := by
  rcases drain_quiescent b.length b le_rfl with h | ⟨hm, hl⟩
  · exact drain_eq_short _ h
  · by_cases h2 : 2 ≤ (drain b).2.length
    · exact drain_eq_wait _ h2 hl hm
    · exact drain_eq_short _ (by omega)

/-- Feeding a list of chunks through `add_data` one call at a time,
concatenating the packets returned by each call. -/
def feed_chunks (p : PacketParser) (chunks : List (List Nat)) :
    List (List Nat) × PacketParser :=
  match chunks with
  | [] => ([], p)
  | c :: cs =>
    let r := add_data p c
    let rest := feed_chunks r.2 cs
    (r.1 ++ rest.1, rest.2)

theorem feed_chunks_eq_add_data : ∀ (chunks : List (List Nat)) (p : PacketParser),
    drain p.buffer = ([], p.buffer) →
    feed_chunks p chunks = add_data p chunks.flatten := by
  intro chunks
  induction chunks with
  | nil =>
    intro p hq
    obtain ⟨buf⟩ := p
    simp only [feed_chunks, List.flatten_nil, add_data, List.append_nil] at hq ⊢
    rw [hq]
  | cons c cs ih =>
    intro p hq
    have hnext : drain (add_data p c).2.buffer = ([], (add_data p c).2.buffer) := by
      simpa [add_data] using drain_idem (p.buffer ++ c)
    have hrec := ih (add_data p c).2 hnext
    simp only [feed_chunks]
    rw [hrec]
    simp only [add_data, List.flatten_cons]
    rw [← List.append_assoc, drain_append (p.buffer ++ c) cs.flatten]

/-- Python `int.from_bytes(bs, byteorder='little')`: little-endian
unsigned value of a byte string. -/
def leUnsigned : List Nat → Nat
  | [] => 0
  | b :: bs => b + 256 * leUnsigned bs

/-- Python `int.from_bytes(bs, byteorder='little', signed=True)`:
little-endian two's-complement value of a byte string. -/
def leSigned (bs : List Nat) : Int :=
  if 2 * leUnsigned bs < 256 ^ bs.length then (leUnsigned bs : Int)
  else (leUnsigned bs : Int) - 256 ^ bs.length

/-- Python slicing `data[a:b]` for `a ≤ b` (clamped to the data length,
never raising). -/
def slice (data : List Nat) (a b : Nat) : List Nat :=
  (data.drop a).take (b - a)

/-- Data class `MotionData`: accelerations in g, rotations in deg/s,
held as exact rationals. -/
structure MotionData where
  acc_x : ℚ
  acc_y : ℚ
  acc_z : ℚ
  rot_x : ℚ
  rot_y : ℚ
  rot_z : ℚ
deriving DecidableEq

/-- Data class `LocationData`: GPS-related measurements. -/
structure LocationData where
  latitude : ℚ
  longitude : ℚ
  speed : ℚ
  satellites : Nat
  fix_status : String
  altitude_wgs : ℚ
  altitude_msl : ℚ
deriving DecidableEq

/-- Data class `ParsedData`: complete parsed data from a RaceBox packet. -/
structure ParsedData where
  motion : MotionData
  location : LocationData
  raw_data : List Nat
deriving DecidableEq

/-- The method `PacketParser.parse_motion_data`.  Python slicing is total
and `int.from_bytes` of a short or empty slice still succeeds, so the
`except` branch of the source is unreachable and the function is total. -/
def parse_motion_data (data : List Nat) : MotionData :=
  { acc_x := (leSigned (slice data 68 70) : ℚ) / 1000
    acc_y := (leSigned (slice data 70 72) : ℚ) / 1000
    acc_z := (leSigned (slice data 72 74) : ℚ) / 1000
    rot_x := (leSigned (slice data 74 76) : ℚ) / 100
    rot_y := (leSigned (slice data 76 78) : ℚ) / 100
    rot_z := (leSigned (slice data 78 80) : ℚ) / 100 }

/-- The method `PacketParser.parse_location_data`.  The single-byte index
accesses `data[23]` and `data[20]` raise `IndexError` on short input;
that exception path is modelled by `none`.  The speed scale `3.6` of the
source is the exact rational `36 / 10`. -/
def parse_location_data (data : List Nat) : Option LocationData :=
  match data[23]?, data[20]? with
  | some sats, some fixByte =>
    some { latitude := (leSigned (slice data 28 32) : ℚ) / 10000000
           longitude := (leSigned (slice data 24 28) : ℚ) / 10000000
           speed := (leSigned (slice data 48 52) : ℚ) / 1000 * (36 / 10)
           satellites := sats
           fix_status := if fixByte = 3 then "3D FIX" else "NO FIX"
           altitude_wgs := (leSigned (slice data 32 36) : ℚ) / 1000
           altitude_msl := (leSigned (slice data 36 40) : ℚ) / 1000 }
  | _, _ => none

/-- The method `PacketParser.parse_packet`: reject any input that is not
exactly `PACKET_SIZE` bytes long or does not begin with the start
sequence; any parsing exception is caught and converted to `None`. -/
def parse_packet (packet : List Nat) : Option ParsedData :=
  if packet.length ≠ PACKET_SIZE then none
  else if packet.take 2 ≠ PACKET_START then none
  else
    match parse_location_data packet with
    | some loc =>
      some { motion := parse_motion_data packet, location := loc, raw_data := packet }
    | none => none

/-- The method `PacketParser.parse_packet` with the parser state passed
explicitly: the source method reads no instance state other than the
constants `PACKET_SIZE` and `PACKET_START` and writes none, so the state
is returned unchanged. -/
def parse_packetS (p : PacketParser) (packet : List Nat) :
    Option ParsedData × PacketParser :=
  (parse_packet packet, p)

/-- The example packet from the RaceBox documentation, as hard-coded in
`TestPacketParser.setUp`.  Note that it is 88 bytes long: a full UBX
frame with 6 header bytes, an 80-byte payload and a 2-byte checksum. -/
def example_packet : List Nat :=
  [0xB5, 0x62, 0xFF, 0x01, 0x50, 0x00, 0xA0, 0xE7, 0x0C, 0x07, 0xE6, 0x07,
   0x01, 0x0A, 0x08, 0x33, 0x08, 0x37, 0x19, 0x00, 0x00, 0x00, 0x2A, 0xAD,
   0x4D, 0x0E, 0x03, 0x01, 0xEA, 0x0B, 0xC6, 0x93, 0xE1, 0x0D, 0x3B, 0x37,
   0x6F, 0x19, 0x61, 0x8C, 0x09, 0x00, 0x0F, 0x01, 0x09, 0x00, 0x9C, 0x03,
   0x00, 0x00, 0x2C, 0x07, 0x00, 0x00, 0x23, 0x00, 0x00, 0x00, 0x00, 0x00,
   0x00, 0x00, 0xD0, 0x00, 0x00, 0x00, 0x88, 0xA9, 0xDD, 0x00, 0x2C, 0x01,
   0x00, 0x59, 0xFD, 0xFF, 0x71, 0x00, 0xCE, 0x03, 0x2F, 0xFF, 0x56, 0x00,
   0xFC, 0xFF, 0x06, 0xDB]

theorem parse_location_data_total (data : List Nat) (h : 24 ≤ data.length) :
    ∃ loc, parse_location_data data = some loc := by
  unfold parse_location_data
  have h23 : data[23]? = some data[23] := List.getElem?_eq_getElem (by omega)
  have h20 : data[20]? = some data[20] := List.getElem?_eq_getElem (by omega)
  rw [h23, h20]
  exact ⟨_, rfl⟩

theorem parse_packet_total (packet : List Nat) (h1 : packet.length = PACKET_SIZE)
    (h2 : packet.take 2 = PACKET_START) :
    ∃ r, parse_packet packet = some r := by
  unfold parse_packet
  rw [if_neg (by omega), if_neg (by simp [h2])]
  obtain ⟨loc, hloc⟩ := parse_location_data_total packet
    (by simp [PACKET_SIZE] at h1; omega)
  rw [hloc]
  exact ⟨_, rfl⟩

/-- The mutable state of `RaceboxApp` that `handle_bluetooth_data`
touches: the packet parser and the `display_data` flag. -/
structure AppState where
  parser : PacketParser
  display_data : Bool
deriving DecidableEq

/-- The method `RaceboxApp.handle_bluetooth_data`: always feed the chunk
to `add_data`; only when `display_data` is true call `parse_packet` on
each complete packet and hand every successfully parsed record to
`handle_parsed_data`.  Returns the new state, the list of results of the
`parse_packet` calls that were actually made, and the records passed on
to the display. -/
def handle_bluetooth_data (st : AppState) (data : List Nat) :
    AppState × List (Option ParsedData) × List ParsedData :=
  let r := add_data st.parser data
  let computed := if st.display_data then r.1.map parse_packet else []
  let displayed := computed.filterMap id
  (⟨r.2, st.display_data⟩, computed, displayed)

/-- The `while retry_count < max_retry_attempts` loop of
`BLTHandler.connect_and_run`, specialised to a run in which every
connection attempt raises a non-cancellation exception (the
`except Exception` branch): each failure increments `retry_count` and, if
the new count is still below the maximum, sleeps for the configured
retry delay before the next attempt; otherwise the loop breaks.  The
state is `(retry_count, delays)` where `delays` counts the
`asyncio.sleep(retry_delay)` backoff calls; `fuel = maxRetry` bounds the
iterations. -/
def connect_loop (maxRetry : Nat) : Nat → Nat → Nat → Nat × Nat
  | 0, retry_count, delays => (retry_count, delays)
  | fuel + 1, retry_count, delays =>
    if retry_count < maxRetry then
      if retry_count + 1 < maxRetry then
        connect_loop maxRetry fuel (retry_count + 1) (delays + 1)
      else (retry_count + 1, delays)
    else (retry_count, delays)

/-- Run `BLTHandler.connect_and_run` under consecutive transport failures
on every attempt: the loop starts with `retry_count = 0` and no delays
issued, and the method finally returns `self._is_connected`, which is
`False` on this path.  Result: final retry count, number of backoff
delays, and the returned connection status. -/
def connect_and_run_all_failures (maxRetry : Nat) : Nat × Nat × Bool :=
  let r := connect_loop maxRetry maxRetry 0 0
  (r.1, r.2, false)

theorem connect_loop_spec : ∀ (fuel maxRetry rc d : Nat), maxRetry - rc ≤ fuel →
    rc < maxRetry → connect_loop maxRetry fuel rc d = (maxRetry, d + (maxRetry - rc - 1)) := by
  intro fuel
  induction fuel with
  | zero =>
    intro maxRetry rc d hf hrc
    omega
  | succ n ih =>
    intro maxRetry rc d hf hrc
    simp only [connect_loop]
    rw [if_pos hrc]
    by_cases hstep : rc + 1 < maxRetry
    · rw [if_pos hstep, ih maxRetry (rc + 1) (d + 1) (by omega) hstep]
      have : d + 1 + (maxRetry - (rc + 1) - 1) = d + (maxRetry - rc - 1) := by omega
      rw [this]
    · rw [if_neg hstep]
      have h1 : rc + 1 = maxRetry := by omega
      have h2 : d = d + (maxRetry - rc - 1) := by omega
      rw [h1, ← h2]

/-- C1: chunk-boundary independence of frame assembly — for every way of
splitting a byte sequence into consecutive chunks, calling `add_data` on
each chunk in order starting from an empty buffer and concatenating the
returned packet lists yields exactly the frames, in the same order, that
a single `add_data` call on the full concatenation yields, and both runs
leave the same buffer state. -/
theorem C1_chunk_boundary_independence (chunks : List (List Nat)) :
    (feed_chunks ⟨[]⟩ chunks).1 = (add_data ⟨[]⟩ chunks.flatten).1 ∧
    (feed_chunks ⟨[]⟩ chunks).2 = (add_data ⟨[]⟩ chunks.flatten).2 := by
  have h := feed_chunks_eq_add_data chunks ⟨[]⟩ (drain_eq_short [] (by simp))
  exact ⟨by rw [h], by rw [h]⟩

/-- C2: what the code actually computes on the documentation example
packet hard-coded in the tests.  The fixture is 88 bytes (not 80), so
`parse_packet` rejects it outright; the field decoders applied to it read
payload-relative offsets without the 6-byte UBX header, giving
satellites 173 (the tests assert 11), fix status "NO FIX" (the tests
assert "3D FIX") and a latitude numerator of -1815737366 instead of the
asserted 426719035 — which actually sits at bytes 34–38 of the frame. -/
theorem C2_decoder_fixture_divergence :
    example_packet.length = 88 ∧
    parse_packet example_packet = none ∧
    (∃ loc, parse_location_data example_packet = some loc ∧
      loc.satellites = 173 ∧
      loc.fix_status = "NO FIX" ∧
      loc.latitude = (leSigned (slice example_packet 28 32) : ℚ) / 10000000) ∧
    leSigned (slice example_packet 28 32) = -1815737366 ∧
    leSigned (slice example_packet 34 38) = 426719035 :=
  ⟨by decide, rfl, ⟨_, rfl, rfl, rfl, rfl⟩, by decide, by decide⟩

/-- C3: `parse_packet` returns an absent value on every input whose
length is not exactly `PACKET_SIZE` or whose first two bytes are not the
start marker; the embedding is a total function, so no exception escapes
to the caller. -/
theorem C3_parse_packet_rejects (packet : List Nat)
    (h : packet.length ≠ PACKET_SIZE ∨ packet.take 2 ≠ PACKET_START) :
    parse_packet packet = none := by
  unfold parse_packet
  rcases h with h | h
  · rw [if_pos h]
  · by_cases hl : packet.length ≠ PACKET_SIZE
    · rw [if_pos hl]
    · rw [if_neg hl, if_pos h]

theorem C3_witness :
    (([0, 1, 2] : List Nat).length ≠ PACKET_SIZE ∨
      ([0, 1, 2] : List Nat).take 2 ≠ PACKET_START) ∧
    parse_packet [0, 1, 2] = none :=
  ⟨Or.inl (by decide), C3_parse_packet_rejects [0, 1, 2] (Or.inl (by decide))⟩

/-- C4: desynchronization recovery — noise bytes in which no adjacent
pair forms the marker, followed by one complete valid frame, yield
exactly that frame from a single `add_data` call on an empty buffer, the
noise being discarded; and in general the input of any `add_data` call
decomposes into dropped-junk stretches interleaved with the emitted
frames followed by the residual buffer, so no frame is emitted twice and
no byte is lost except leading junk dropped before a valid marker. -/
theorem C4_desync_recovery :
    (∀ noise frame, noiseOk noise → frame.length = PACKET_SIZE →
        frame.take 2 = PACKET_START →
        add_data ⟨[]⟩ (noise ++ frame) = ([frame], ⟨[]⟩)) ∧
    (∀ buf data : List Nat, ∃ js : List (List Nat),
        js.length = (add_data ⟨buf⟩ data).1.length + 1 ∧
        buf ++ data = interleave js (add_data ⟨buf⟩ data).1 ++
          (add_data ⟨buf⟩ data).2.buffer) := by
  constructor
  · intro noise frame hok hlen hmk
    have h := drain_noise noise frame hok hlen hmk
    simp [add_data, h]
  · intro buf data
    obtain ⟨js, h1, h2⟩ := drain_conservation (buf ++ data).length (buf ++ data) le_rfl
    exact ⟨js, by simpa [add_data] using h1, by simpa [add_data] using h2⟩

theorem C4_witness :
    noiseOk [7, 0xB5, 0xB5] ∧
    (example_packet.take 80).length = PACKET_SIZE ∧
    (example_packet.take 80).take 2 = PACKET_START ∧
    add_data ⟨[]⟩ ([7, 0xB5, 0xB5] ++ example_packet.take 80) =
      ([example_packet.take 80], ⟨[]⟩) :=
  ⟨by simp [noiseOk], by decide, by decide,
    C4_desync_recovery.1 [7, 0xB5, 0xB5] (example_packet.take 80)
      (by simp [noiseOk]) (by decide) (by decide)⟩

/-- C5 as amended: under `N ≥ 1` consecutive transport failures with
`max_retry_attempts = N`, `connect_and_run` increments the retry counter
exactly once per failure up to `N`, returns a non-connected status
exactly once, and issues exactly `N - 1` backoff delays — none after the
final failure, which breaks out of the loop immediately. -/
theorem C5_retry_accounting (N : Nat) (h : 1 ≤ N) :
    connect_and_run_all_failures N = (N, N - 1, false) := by
  simp only [connect_and_run_all_failures]
  rw [connect_loop_spec N N 0 0 (by omega) (by omega)]
  have h1 : 0 + (N - 0 - 1) = N - 1 := by omega
  rw [h1]

theorem C5_witness : 1 ≤ 3 ∧ connect_and_run_all_failures 3 = (3, 2, false) :=
  ⟨by decide, C5_retry_accounting 3 (by decide)⟩

/-- C5 counterexample to the claim as stated: with a configured maximum
of one retry and one failing attempt the code issues zero backoff
delays, not the one delay per failure the claim asserts. -/
theorem C5_counterexample :
    connect_and_run_all_failures 1 = (1, 0, false) ∧
    (connect_and_run_all_failures 1).2.1 ≠ 1 := by decide

/-- C6 as amended: the frame-assembler buffer state after processing a
chunk is identical for both values of the display flag, and while the
flag is false the display collaborator receives no records and
`parse_packet` is not invoked at all — records are neither computed nor
buffered. -/
theorem C6_display_flag_noninterference (buf data : List Nat) :
    (handle_bluetooth_data ⟨⟨buf⟩, false⟩ data).1.parser =
      (handle_bluetooth_data ⟨⟨buf⟩, true⟩ data).1.parser ∧
    (handle_bluetooth_data ⟨⟨buf⟩, false⟩ data).2.1 = [] ∧
    (handle_bluetooth_data ⟨⟨buf⟩, false⟩ data).2.2 = [] :=
  ⟨rfl, rfl, rfl⟩

/-- C6 counterexample to the claim as stated: on a chunk holding one
complete valid frame, the handler with the display flag false makes no
`parse_packet` call at all, while with the flag true it makes one — so
records are not "still computed and discarded" while the flag is
false. -/
theorem C6_counterexample :
    (handle_bluetooth_data ⟨⟨[]⟩, false⟩ (example_packet.take 80)).2.1 = [] ∧
    (handle_bluetooth_data ⟨⟨[]⟩, true⟩ (example_packet.take 80)).2.1 ≠ [] := by
  constructor
  · rfl
  · decide

/-- C7: decode purity and idempotence — on a valid marker-prefixed
`PACKET_SIZE`-byte frame, two successive `parse_packet` calls return the
same present record and the parser state is unchanged by the call. -/
theorem C7_parse_packet_pure (st : PacketParser) (packet : List Nat)
    (h1 : packet.length = PACKET_SIZE) (h2 : packet.take 2 = PACKET_START) :
    (parse_packetS st packet).1 =
      (parse_packetS (parse_packetS st packet).2 packet).1 ∧
    (parse_packetS st packet).2 = st ∧
    ∃ r, (parse_packetS st packet).1 = some r :=
  ⟨rfl, rfl, parse_packet_total packet h1 h2⟩

theorem C7_witness :
    (example_packet.take 80).length = PACKET_SIZE ∧
    (example_packet.take 80).take 2 = PACKET_START ∧
    ((parse_packetS ⟨[1, 2, 3]⟩ (example_packet.take 80)).1 =
        (parse_packetS (parse_packetS ⟨[1, 2, 3]⟩ (example_packet.take 80)).2
          (example_packet.take 80)).1 ∧
      (parse_packetS ⟨[1, 2, 3]⟩ (example_packet.take 80)).2 = ⟨[1, 2, 3]⟩ ∧
      ∃ r, (parse_packetS ⟨[1, 2, 3]⟩ (example_packet.take 80)).1 = some r) :=
  ⟨by decide, by decide,
    C7_parse_packet_pure ⟨[1, 2, 3]⟩ (example_packet.take 80) (by decide) (by decide)⟩

/-- C8: emitted-frame invariant — every packet returned by `add_data`,
from any buffer state, is exactly `PACKET_SIZE` bytes long and starts
with the marker. -/
theorem C8_emitted_frame_invariant (buf data packet : List Nat)
    (h : packet ∈ (add_data ⟨buf⟩ data).1) :
    packet.length = PACKET_SIZE ∧ packet.take 2 = PACKET_START := by
  have h' : packet ∈ (drain (buf ++ data)).1 := by simpa [add_data] using h
  exact drain_frames (buf ++ data).length (buf ++ data) le_rfl packet h'

theorem C8_witness :
    example_packet.take 80 ∈ (add_data ⟨[]⟩ example_packet).1 ∧
    ((example_packet.take 80).length = PACKET_SIZE ∧
      (example_packet.take 80).take 2 = PACKET_START) :=
  ⟨by decide, C8_emitted_frame_invariant [] example_packet _ (by decide)⟩

/-- C9: implicit buffer post-condition — after any `add_data` call, from
any buffer state (in particular every state reachable from the empty
buffer), the internal buffer has length less than two, or starts with
the marker and is strictly shorter than `PACKET_SIZE`. -/
theorem C9_buffer_postcondition (buf data : List Nat) :
    (add_data ⟨buf⟩ data).2.buffer.length < 2 ∨
      ((add_data ⟨buf⟩ data).2.buffer.take 2 = PACKET_START ∧
        (add_data ⟨buf⟩ data).2.buffer.length < PACKET_SIZE) := by
  have h := drain_quiescent (buf ++ data).length (buf ++ data) le_rfl
  simpa [add_data] using h

/-- C10: decode totality under the precondition — every input of length
exactly `PACKET_SIZE` whose first two bytes are the marker yields a
present record; all byte accesses of the decoders lie within the input,
so the exception branches are unreachable. -/
theorem C10_decode_totality (packet : List Nat) (h1 : packet.length = PACKET_SIZE)
    (h2 : packet.take 2 = PACKET_START) :
    ∃ r, parse_packet packet = some r :=
  parse_packet_total packet h1 h2

theorem C10_witness :
    (example_packet.take 80).length = PACKET_SIZE ∧
    (example_packet.take 80).take 2 = PACKET_START ∧
    ∃ r, parse_packet (example_packet.take 80) = some r :=
  ⟨by decide, by decide,
    C10_decode_totality (example_packet.take 80) (by decide) (by decide)⟩

end Racebox
